import Mathlib

/-!
Verification of `sample_size_calculator.ipynb` (stacked incrementality testing).

The notebook defines four numerical operations:
  * `generalised_welch_satterthwaite(s_squared, n)` — approximate degrees of
    freedom for the generalised Welch t-statistic;
  * `get_min_sample_sizes(rhs_func, **kwargs)` — a fixed-point iteration that
    alternates between a right-hand-side value and the Welch–Satterthwaite
    degrees of freedom until the candidate integer sample size exceeds the RHS;
  * `get_min_sample_sizes_equal` / `get_min_sample_sizes_ratioed` — the two
    scenario wrappers that build the RHS closures;
  * `get_min_detectable_effect` — a closed form (not embedded here: it needs
    a real square root and concrete scipy quantiles).

The embedding works over `ℚ` (exact rational arithmetic; division by zero is
Lean's junk value `0`).  The scipy quantile functions `norm.ppf` / `t.ppf` are
an external collaborator, so the squared quantile differences
`norm_quantile_diff significance_level min_power` and
`t_quantile_diff significance_level min_power ν` appear as parameters
`nqd : ℚ` and `tqd : ℚ → ℚ` of the scenario wrappers.  The unbounded Python
`while` loop is modelled with an explicit fuel counter: `none` means the loop
was still running when the fuel ran out (the source has no iteration cap).
-/

namespace SampleSize

/-- The numerator accumulator of `generalised_welch_satterthwaite`:
`numerator_acc += s_squared[i] / n[i]` over `i in range(0, len(s_squared), 1)`.
(The Python loop indexes both lists up to `len(s_squared)`; the recursion stops
at the shorter list, which agrees with the source whenever the lengths match.) -/
def ws_num : List ℚ → List ℚ → ℚ
  | [], _ => 0
  | _, [] => 0
  | x :: s, m :: n => x / m + ws_num s n

/-- The denominator accumulator of `generalised_welch_satterthwaite`:
`denominator += np.power(s_squared[i], 2) / ((n[i] - 1) * n[i] * n[i])`. -/
def ws_den : List ℚ → List ℚ → ℚ
  | [], _ => 0
  | _, [] => 0
  | x :: s, m :: n => x ^ 2 / ((m - 1) * m * m) + ws_den s n

/-- `generalised_welch_satterthwaite(s_squared, n)`:
returns `np.power(numerator_acc, 2) / denominator`. -/
def generalised_welch_satterthwaite (s_squared n : List ℚ) : ℚ :=
  ws_num s_squared n ^ 2 / ws_den s_squared n

/-- The Welch–Satterthwaite formula exactly as the spec writes it:
`ν = (Σ_g ψ_g)² / Σ_g (ψ_g² / (n_g − 1))` where `ψ_g = s_g² / n_g`
(the entries of `s_squared` are the `s_g²`).  Written from the spec's words,
to be compared with the source embedding above. -/
def spec_nu (s_squared n : List ℚ) : ℚ :=
  ((s_squared.zip n).map (fun p => p.1 / p.2)).sum ^ 2 /
    ((s_squared.zip n).map (fun p => (p.1 / p.2) ^ 2 / (p.2 - 1))).sum

lemma ws_num_eq_sum (s n : List ℚ) :
    ws_num s n = ((s.zip n).map (fun p => p.1 / p.2)).sum := by
  induction s generalizing n with
  | nil => simp [ws_num]
  | cons x s ih =>
    cases n with
    | nil => simp [ws_num]
    | cons m n => simp [ws_num, ih]

lemma ws_den_eq_sum (s n : List ℚ) :
    ws_den s n = ((s.zip n).map (fun p => p.1 ^ 2 / ((p.2 - 1) * p.2 * p.2))).sum := by
  induction s generalizing n with
  | nil => simp [ws_den]
  | cons x s ih =>
    cases n with
    | nil => simp [ws_den]
    | cons m n => simp [ws_den, ih]

/-- The per-group denominator term of the source,
`s² / ((n−1)·n·n)`, equals the spec's `ψ² / (n−1)` with `ψ = s²/n`
(an identity of field junk-division, valid for every `m`). -/
lemma ws_den_term_eq (x m : ℚ) :
    x ^ 2 / ((m - 1) * m * m) = (x / m) ^ 2 / (m - 1) := by
  rw [div_pow, div_div]
  congr 1
  ring

/-- C1: for equal-length inputs with non-negative variances, at least one
group and every group size above one, `generalised_welch_satterthwaite`
returns exactly `(Σ_g ψ_g)² / Σ_g (ψ_g²/(n_g−1))` with `ψ_g = s_g²/n_g`. -/
theorem welch_satterthwaite_matches_spec (s n : List ℚ)
    (_hlen : s.length = n.length) (_hpos : 0 < s.length)
    (_hn : ∀ p ∈ s.zip n, (1 : ℚ) < p.2) (_hs : ∀ x ∈ s, (0 : ℚ) ≤ x) :
    generalised_welch_satterthwaite s n = spec_nu s n := by
  unfold generalised_welch_satterthwaite spec_nu
  rw [ws_num_eq_sum, ws_den_eq_sum]
  congr 1
  apply congrArg List.sum
  apply List.map_congr_left
  intro p _
  exact ws_den_term_eq p.1 p.2

/-- Witness for C1 at `s_squared = [1, 2]`, `n = [2, 4]`. -/
theorem welch_satterthwaite_matches_spec_witness :
    generalised_welch_satterthwaite [1, 2] [2, 4] = spec_nu [1, 2] [2, 4] :=
  welch_satterthwaite_matches_spec [1, 2] [2, 4] (by decide) (by decide)
    (by decide) (by decide)

/-- C7: `generalised_welch_satterthwaite` is invariant under any permutation
applied simultaneously to `s_squared` and `n` (stated as: the zipped group
lists are permutations of each other). -/
theorem welch_satterthwaite_perm_invariant (s n t m : List ℚ)
    (_hlen : s.length = n.length) (_hlen' : t.length = m.length)
    (_hn : ∀ p ∈ s.zip n, (1 : ℚ) < p.2)
    (hperm : (s.zip n).Perm (t.zip m)) :
    generalised_welch_satterthwaite s n = generalised_welch_satterthwaite t m := by
  unfold generalised_welch_satterthwaite
  rw [ws_num_eq_sum, ws_num_eq_sum, ws_den_eq_sum, ws_den_eq_sum,
    (hperm.map _).sum_eq, (hperm.map _).sum_eq]

/-- Witness for C7: swapping the two groups of `s = [1, 2]`, `n = [2, 3]`. -/
theorem welch_satterthwaite_perm_invariant_witness :
    generalised_welch_satterthwaite [1, 2] [2, 3] =
      generalised_welch_satterthwaite [2, 1] [3, 2] :=
  welch_satterthwaite_perm_invariant [1, 2] [2, 3] [2, 1] [3, 2]
    (by decide) (by decide) (by decide) (by decide)

/-! ## The solver `get_min_sample_sizes`

`rhs_func(**kwargs)` (no `nu`) is the normal-quantile RHS value
`rhs_normal_quantile : ℚ`; `rhs_func(**kwargs, nu=nu)` is the t-quantile RHS
function `rhs_t : ℚ → ℚ`.  The Python `while` loop has no iteration cap, so it
is modelled with fuel: `none` means the loop was still running when the fuel
ran out. -/

/-- `nu` as recomputed inside `get_min_sample_sizes`:
`generalised_welch_satterthwaite(s_squared, np.repeat(n_min, np.array(s_squared).shape[0]))`. -/
def nu_of (s_squared : List ℚ) (n_min : ℚ) : ℚ :=
  generalised_welch_satterthwaite s_squared (List.replicate s_squared.length n_min)

/-- The `while (n_min <= rhs_t_quantile)` loop of `get_min_sample_sizes`,
with fuel counting loop iterations. -/
def gms_loop (rhs_t : ℚ → ℚ) (s_squared : List ℚ) : ℕ → ℚ → ℚ → Option ℚ
  | 0, n_min, rhs_t_quantile =>
    if n_min ≤ rhs_t_quantile then none else some n_min
  | fuel + 1, n_min, rhs_t_quantile =>
    if n_min ≤ rhs_t_quantile then
      gms_loop rhs_t s_squared fuel ((⌈rhs_t_quantile⌉ : ℤ) : ℚ)
        (rhs_t (nu_of s_squared ((⌈rhs_t_quantile⌉ : ℤ) : ℚ)))
    else some n_min

/-- `get_min_sample_sizes`: start from `n_min = ceil(rhs_normal_quantile)`,
compute `nu` and `rhs_t_quantile`, then run the while loop. -/
def get_min_sample_sizes (fuel : ℕ) (rhs_normal_quantile : ℚ) (rhs_t : ℚ → ℚ)
    (s_squared : List ℚ) : Option ℚ :=
  gms_loop rhs_t s_squared fuel ((⌈rhs_normal_quantile⌉ : ℤ) : ℚ)
    (rhs_t (nu_of s_squared ((⌈rhs_normal_quantile⌉ : ℤ) : ℚ)))

lemma gms_loop_sound (rhs_t : ℚ → ℚ) (s : List ℚ) :
    ∀ (fuel : ℕ) (n m : ℚ),
      gms_loop rhs_t s fuel n (rhs_t (nu_of s n)) = some m →
      rhs_t (nu_of s m) < m := by
  intro fuel
  induction fuel with
  | zero =>
    intro n m h
    by_cases hc : n ≤ rhs_t (nu_of s n)
    · simp [gms_loop, hc] at h
    · simp [gms_loop, hc] at h
      rw [← h]
      exact not_le.mp hc
  | succ fuel ih =>
    intro n m h
    by_cases hc : n ≤ rhs_t (nu_of s n)
    · rw [gms_loop, if_pos hc] at h
      exact ih _ m h
    · rw [gms_loop, if_neg hc, Option.some.injEq] at h
      rw [← h]
      exact not_le.mp hc

/-- C2: whenever `get_min_sample_sizes` returns a value `n_min`, that value
satisfies the defining self-consistent inequality `n_min > rhs(params, ν(n_min))`,
where `ν(n_min)` is the Welch–Satterthwaite degrees of freedom with every
group size set to `n_min`. -/
theorem solver_satisfies_defining_inequality (fuel : ℕ)
    (rhs_normal_quantile : ℚ) (rhs_t : ℚ → ℚ) (s_squared : List ℚ) (n_min : ℚ)
    (h : get_min_sample_sizes fuel rhs_normal_quantile rhs_t s_squared = some n_min) :
    rhs_t (nu_of s_squared n_min) < n_min :=
  gms_loop_sound rhs_t s_squared fuel _ n_min h

/-- Witness for C2: `rhs_normal = 2`, constant t-RHS `1`, one group; the
solver returns `2` and indeed `rhs_t(ν(2)) = 1 < 2`. -/
theorem solver_satisfies_defining_inequality_witness : (1 : ℚ) < 2 :=
  solver_satisfies_defining_inequality 5 2 (fun _ => 1) [1] 2 (by
    norm_num [get_min_sample_sizes, gms_loop])

lemma gms_loop_mono (rhs_t : ℚ → ℚ) (s : List ℚ) :
    ∀ (fuel : ℕ) (n r m : ℚ), gms_loop rhs_t s fuel n r = some m → n ≤ m := by
  intro fuel
  induction fuel with
  | zero =>
    intro n r m h
    by_cases hc : n ≤ r
    · simp [gms_loop, hc] at h
    · simp [gms_loop, hc] at h
      exact le_of_eq h
  | succ fuel ih =>
    intro n r m h
    by_cases hc : n ≤ r
    · rw [gms_loop, if_pos hc] at h
      exact le_trans (le_trans hc (Int.le_ceil r)) (ih _ _ m h)
    · rw [gms_loop, if_neg hc, Option.some.injEq] at h
      exact le_of_eq h

lemma gms_loop_int (rhs_t : ℚ → ℚ) (s : List ℚ) :
    ∀ (fuel : ℕ) (n r m : ℚ), gms_loop rhs_t s fuel n r = some m →
      (∃ k : ℤ, n = (k : ℚ)) → ∃ k : ℤ, m = (k : ℚ) := by
  intro fuel
  induction fuel with
  | zero =>
    intro n r m h hn
    by_cases hc : n ≤ r
    · simp [gms_loop, hc] at h
    · simp [gms_loop, hc] at h
      exact h ▸ hn
  | succ fuel ih =>
    intro n r m h hn
    by_cases hc : n ≤ r
    · rw [gms_loop, if_pos hc] at h
      exact ih _ _ m h ⟨⌈r⌉, rfl⟩
    · rw [gms_loop, if_neg hc, Option.some.injEq] at h
      exact h ▸ hn

/-- C9: the solver's result is always integer-valued (every candidate is
produced by a ceiling), is at least the initial candidate
`ceil(rhs_normal_quantile)`, and the loop's candidate sequence is
non-decreasing (each loop entry value bounds the final result from below). -/
theorem solver_result_integer_and_monotone :
    (∀ (fuel : ℕ) (rhs_normal_quantile : ℚ) (rhs_t : ℚ → ℚ)
        (s_squared : List ℚ) (n_min : ℚ),
      get_min_sample_sizes fuel rhs_normal_quantile rhs_t s_squared = some n_min →
        (∃ k : ℤ, n_min = (k : ℚ)) ∧ ((⌈rhs_normal_quantile⌉ : ℤ) : ℚ) ≤ n_min) ∧
    (∀ (rhs_t : ℚ → ℚ) (s_squared : List ℚ) (fuel : ℕ) (n r m : ℚ),
      gms_loop rhs_t s_squared fuel n r = some m → n ≤ m) := by
  constructor
  · intro fuel r0 rhs_t s m h
    exact ⟨gms_loop_int rhs_t s fuel _ _ m h ⟨⌈r0⌉, rfl⟩,
      gms_loop_mono rhs_t s fuel _ _ m h⟩
  · intro rhs_t s fuel n r m h
    exact gms_loop_mono rhs_t s fuel n r m h

/-- Witness for C9, at `rhs_normal = 2` with constant t-RHS `0`. -/
theorem solver_result_integer_and_monotone_witness :
    ((∃ k : ℤ, (2 : ℚ) = (k : ℚ)) ∧ ((⌈(2 : ℚ)⌉ : ℤ) : ℚ) ≤ 2) ∧ (1 : ℚ) ≤ 1 :=
  ⟨solver_result_integer_and_monotone.1 5 2 (fun _ => 0) [1] 2 (by
      norm_num [get_min_sample_sizes, gms_loop]),
   solver_result_integer_and_monotone.2 (fun _ => 0) [1] 0 1 0 1 (by
      norm_num [gms_loop])⟩

/-! ## C3: the loop has no iteration cap

`get_min_sample_sizes` contains no cap and no error path: its result type has
no error value at all.  With the RHS function `fun ν => ν` (which the generic
`rhs_func` interface admits) and `s_squared = [1, 1]`, the state
`(n_min, rhs_t_quantile) = (2, 2)` reproduces itself forever, because
`ν = WelchSatterthwaite([1,1],[2,2]) = 2` and `2 ≤ 2` keeps the `while` going:
the Python loop runs indefinitely, and the fuelled model returns `none` at
every fuel. -/

lemma nu_of_one_one_two : nu_of [1, 1] (2 : ℚ) = 2 := by
  norm_num [nu_of, generalised_welch_satterthwaite, ws_num, ws_den, List.replicate]

lemma gms_loop_id_stuck :
    ∀ fuel : ℕ, gms_loop (fun ν => ν) [1, 1] fuel 2 2 = none := by
  intro fuel
  induction fuel with
  | zero => simp [gms_loop]
  | succ fuel ih =>
    have hceil : ((⌈(2 : ℚ)⌉ : ℤ) : ℚ) = 2 := by norm_num
    rw [gms_loop, if_pos le_rfl, hceil, nu_of_one_one_two]
    exact ih

lemma solver_id_diverges (fuel : ℕ) :
    get_min_sample_sizes fuel 2 (fun ν => ν) [1, 1] = none := by
  have hceil : ((⌈(2 : ℚ)⌉ : ℤ) : ℚ) = 2 := by norm_num
  unfold get_min_sample_sizes
  rw [hceil, nu_of_one_one_two]
  exact gms_loop_id_stuck fuel

/-- C3 counterexample: on the RHS `fun ν => ν` with `s_squared = [1, 1]` and
normal-quantile value `2`, even after a million loop iterations
`get_min_sample_sizes` is still looping (`none` = fuel exhausted); it never
produces an `IterationLimitExceeded` failure — its result type has no error
outcome at all, refuting the claimed iteration cap. -/
theorem solver_no_cap_counterexample :
    get_min_sample_sizes 1000000 2 (fun ν => ν) [1, 1] = none :=
  solver_id_diverges 1000000

/-- C3 amended: `get_min_sample_sizes` has no iteration cap and no
`IterationLimitExceeded` error; on a non-converging input (RHS `fun ν => ν`,
`s_squared = [1, 1]`, normal value `2`) the while loop runs forever: the
fuelled model returns `none` for every fuel bound. -/
theorem solver_has_no_iteration_cap (fuel : ℕ) :
    get_min_sample_sizes fuel 2 (fun ν => ν) [1, 1] = none :=
  solver_id_diverges fuel

/-! ## C4: the Welch function performs no input validation

The source body of `generalised_welch_satterthwaite` contains no check at
all, so a group size `n_g ≤ 1` reaches the divisions directly.  To talk about
what happens there, each division is tracked: `none` records that a raw
division by zero occurred during evaluation (numpy emits a `RuntimeWarning`
and a non-finite value, pure-Python division raises `ZeroDivisionError` — in
neither case a structured, caught error). -/

/-- One division of the source with its zero-divisor failure tracked. -/
def fp_div (x y : ℚ) : Option ℚ :=
  if y = 0 then none else some (x / y)

/-- The accumulation loop of `generalised_welch_satterthwaite` with every
division tracked by `fp_div`; returns `(numerator_acc, denominator)`. -/
def ws_acc_fp : List ℚ → List ℚ → Option (ℚ × ℚ)
  | [], _ => some (0, 0)
  | _, [] => some (0, 0)
  | x :: s, m :: n => do
    let acc ← ws_acc_fp s n
    let t1 ← fp_div x m
    let t2 ← fp_div (x ^ 2) ((m - 1) * m * m)
    pure (t1 + acc.1, t2 + acc.2)

/-- `generalised_welch_satterthwaite` with every division tracked: `none`
means a raw division by zero happened somewhere in the evaluation. -/
def generalised_welch_satterthwaite_fp (s n : List ℚ) : Option ℚ := do
  let acc ← ws_acc_fp s n
  fp_div (acc.1 ^ 2) acc.2

lemma ws_acc_fp_none (s n : List ℚ) (i : ℕ) :
    ∀ (_ : i < s.length) (hi' : i < n.length), n.get ⟨i, hi'⟩ = 1 →
      ws_acc_fp s n = none := by
  induction s generalizing n i with
  | nil =>
    intro hzero
    exact absurd hzero (Nat.not_lt_zero i)
  | cons x s ih =>
    cases n with
    | nil =>
      intro _ hi'
      exact absurd hi' (Nat.not_lt_zero i)
    | cons m n =>
      cases i with
      | zero =>
        intro _ _ h1
        have hm : m = 1 := h1
        subst hm
        cases hacc : ws_acc_fp s n with
        | none => simp [ws_acc_fp, hacc]
        | some acc => norm_num [ws_acc_fp, hacc, fp_div]
      | succ i =>
        intro hi hi' h1
        have := ih n i (Nat.lt_of_succ_lt_succ hi) (Nat.lt_of_succ_lt_succ hi') h1
        simp [ws_acc_fp, this]

/-- C4 counterexample: at `s_squared = [1]`, `n = [1]` (a group size `≤ 1`)
the denominator term divides by `(1−1)·1·1 = 0`: the tracked evaluation
records a raw division-by-zero (`none`), and the untracked source body just
returns the junk quotient — no structured error is surfaced anywhere. -/
theorem welch_no_validation_counterexample :
    generalised_welch_satterthwaite_fp [1] [1] = none ∧
      generalised_welch_satterthwaite [1] [1] = 0 := by
  constructor
  · norm_num [generalised_welch_satterthwaite_fp, ws_acc_fp, fp_div]
  · norm_num [generalised_welch_satterthwaite, ws_num, ws_den]

/-- C4 amended: `generalised_welch_satterthwaite` performs no validation:
whenever some group size equals `1`, its denominator term divides by zero and
the raw floating-point failure propagates through the whole evaluation
(tracked result `none`); no structured error exists in the function. -/
theorem welch_size_one_propagates_raw_division_failure (s n : List ℚ) (i : ℕ)
    (hi : i < s.length) (hi' : i < n.length) (h1 : n.get ⟨i, hi'⟩ = 1) :
    generalised_welch_satterthwaite_fp s n = none := by
  unfold generalised_welch_satterthwaite_fp
  rw [ws_acc_fp_none s n i hi hi' h1]
  rfl

/-- Witness for the amended C4 at `s_squared = [2, 3]`, `n = [5, 1]`. -/
theorem welch_size_one_propagates_raw_division_failure_witness :
    generalised_welch_satterthwaite_fp [2, 3] [5, 1] = none :=
  welch_size_one_propagates_raw_division_failure [2, 3] [5, 1] 1
    (by decide) (by decide) (by decide)

/-! ## The scenario wrappers -/

/-- The failure outcomes of `get_min_sample_sizes_ratioed`: the Python
`assert len(ratio) > 0` (message "Please provide the ratio of at least one
group"), and the `ValueError` numpy raises when
`np.array(s_squared) * ratio[0] / np.array(ratio)` has incompatible shapes. -/
inductive CalcError where
  | ratioAssertionError : CalcError
  | broadcastValueError : CalcError
  deriving DecidableEq

/-- `np.array(s_squared) * ratio[0] / np.array(ratio)` with numpy 1-d
broadcasting: equal lengths operate elementwise, a length-1 operand
broadcasts, and any other length mismatch raises `ValueError`. -/
def np_scale_by_ratio (s_squared ratio : List ℚ) : Except CalcError (List ℚ) :=
  if s_squared.length = ratio.length then
    .ok (List.zipWith (fun x k => x * ratio.headI / k) s_squared ratio)
  else if ratio.length = 1 then
    .ok (s_squared.map (fun x => x * ratio.headI / ratio.headI))
  else if s_squared.length = 1 then
    .ok (ratio.map (fun k => s_squared.headI * ratio.headI / k))
  else .error .broadcastValueError

/-- `get_min_sample_sizes_equal`: the solver run on
`rhs = quantile_diff * np.sum(s_squared) / np.power(theta, 2)`, where the
quantile difference is the normal one (`nqd`) when `nu is None` and the
t one (`tqd ν`) otherwise. -/
def get_min_sample_sizes_equal (fuel : ℕ) (nqd : ℚ) (tqd : ℚ → ℚ)
    (s_squared : List ℚ) (θ : ℚ) : Option ℚ :=
  get_min_sample_sizes fuel (nqd * s_squared.sum / θ ^ 2)
    (fun ν => tqd ν * s_squared.sum / θ ^ 2) s_squared

/-- `get_min_sample_sizes_ratioed`: after `assert len(ratio) > 0`, the solver
run on `rhs = quantile_diff * np.sum(np.array(s_squared) * ratio[0] /
np.array(ratio)) / np.power(theta, 2)`.  The numpy shape failure (if any)
surfaces on the first RHS evaluation, before any solver result, so it is
checked up front here. -/
def get_min_sample_sizes_ratioed (fuel : ℕ) (nqd : ℚ) (tqd : ℚ → ℚ)
    (s_squared ratio : List ℚ) (θ : ℚ) : Except CalcError (Option ℚ) :=
  if 0 < ratio.length then
    match np_scale_by_ratio s_squared ratio with
    | .error e => .error e
    | .ok terms =>
      .ok (get_min_sample_sizes fuel (nqd * terms.sum / θ ^ 2)
        (fun ν => tqd ν * terms.sum / θ ^ 2) s_squared)
  else .error .ratioAssertionError

lemma zipWith_replicate_self (f : ℚ → ℚ → ℚ) (r : ℚ) :
    ∀ s : List ℚ, List.zipWith f s (List.replicate s.length r) =
      s.map (fun x => f x r) := by
  intro s
  induction s with
  | nil => rfl
  | cons x s ih => simp [List.replicate, ih]

lemma map_self_div_ratio (s : List ℚ) (r : ℚ) (hr : r ≠ 0) :
    s.map (fun x => x * r / r) = s := by
  have hf : (fun x : ℚ => x * r / r) = fun x : ℚ => x := by
    funext x
    exact mul_div_cancel_right₀ x hr
  rw [hf]
  exact List.map_id' s

/-- C6: an all-equal ratio vector (one positive entry per group) makes
`get_min_sample_sizes_ratioed` return exactly the
`get_min_sample_sizes_equal` result on the same variances, θ and quantiles. -/
theorem ratioed_uniform_ratio_eq_equal (fuel : ℕ) (nqd : ℚ) (tqd : ℚ → ℚ)
    (s_squared : List ℚ) (θ r : ℚ) (hr : 0 < r) (hpos : 0 < s_squared.length) :
    get_min_sample_sizes_ratioed fuel nqd tqd s_squared
      (List.replicate s_squared.length r) θ =
      .ok (get_min_sample_sizes_equal fuel nqd tqd s_squared θ) := by
  have hhead : (List.replicate s_squared.length r).headI = r := by
    cases hs : s_squared.length with
    | zero => exact absurd (hs ▸ hpos) (lt_irrefl 0)
    | succ l => rfl
  unfold get_min_sample_sizes_ratioed np_scale_by_ratio
  rw [List.length_replicate, if_pos hpos, if_pos rfl, hhead,
    zipWith_replicate_self, map_self_div_ratio s_squared r (ne_of_gt hr)]
  rfl

/-- Witness for C6 at `s_squared = [1]`, uniform ratio `[1]`. -/
theorem ratioed_uniform_ratio_eq_equal_witness :
    get_min_sample_sizes_ratioed 1 1 (fun _ => 0) [1] (List.replicate 1 1) 1 =
      .ok (get_min_sample_sizes_equal 1 1 (fun _ => 0) [1] 1) :=
  ratioed_uniform_ratio_eq_equal 1 1 (fun _ => 0) [1] 1 1 (by norm_num)
    (by norm_num)

lemma np_scale_singleton (s : List ℚ) (k : ℚ) (hk : k ≠ 0) :
    np_scale_by_ratio s [k] = .ok s := by
  unfold np_scale_by_ratio
  by_cases h1 : s.length = ([k] : List ℚ).length
  · rw [if_pos h1]
    obtain ⟨x, hx⟩ := List.length_eq_one.mp (by simpa using h1)
    subst hx
    simp [List.headI, mul_div_cancel_right₀ x hk]
  · rw [if_neg h1, if_pos (by rfl : ([k] : List ℚ).length = 1)]
    rw [show ([k] : List ℚ).headI = k from rfl]
    rw [map_self_div_ratio s k hk]

/-- C8 counterexample: `s_squared = [1, 1]` with the mismatched length-1
ratio `[1]` (lengths 2 ≠ 1) raises nothing: numpy broadcasts the scalar and
the call returns the numerical result `some 16` (with normal/t
quantile-difference stand-ins `8` and `7`), refuting the claimed pre-check of
`len(ratio) == len(s_squared)`. -/
theorem ratioed_no_length_check_counterexample :
    get_min_sample_sizes_ratioed 10 8 (fun _ => 7) [1, 1] [1] 1 =
      .ok (some 16) := by
  norm_num [get_min_sample_sizes_ratioed, np_scale_by_ratio,
    get_min_sample_sizes, gms_loop, nu_of, generalised_welch_satterthwaite,
    ws_num, ws_den, List.replicate]

/-- C8 amended: the empty-ratio assertion is real (an `AssertionError` before
any numerical work), but there is no `len(ratio) == len(s_squared)` check: a
length-1 ratio broadcasts and the call proceeds all the way to exactly the
equal-size numerical result. -/
theorem ratioed_empty_asserts_but_no_length_check :
    (∀ (fuel : ℕ) (nqd : ℚ) (tqd : ℚ → ℚ) (s_squared : List ℚ) (θ : ℚ),
      get_min_sample_sizes_ratioed fuel nqd tqd s_squared [] θ =
        .error .ratioAssertionError) ∧
    (∀ (fuel : ℕ) (nqd : ℚ) (tqd : ℚ → ℚ) (s_squared : List ℚ) (θ k : ℚ),
      k ≠ 0 →
      get_min_sample_sizes_ratioed fuel nqd tqd s_squared [k] θ =
        .ok (get_min_sample_sizes_equal fuel nqd tqd s_squared θ)) := by
  constructor
  · intro fuel nqd tqd s θ
    rfl
  · intro fuel nqd tqd s θ k hk
    unfold get_min_sample_sizes_ratioed
    rw [if_pos (by norm_num : 0 < ([k] : List ℚ).length),
      np_scale_singleton s k hk]
    rfl

/-- Witness for the amended C8: both conjuncts at concrete inputs. -/
theorem ratioed_empty_asserts_but_no_length_check_witness :
    get_min_sample_sizes_ratioed 1 1 (fun _ => 0) [1] [] 1 =
        .error .ratioAssertionError ∧
      get_min_sample_sizes_ratioed 1 1 (fun _ => 0) [1] [3] 1 =
        .ok (get_min_sample_sizes_equal 1 1 (fun _ => 0) [1] 1) :=
  ⟨ratioed_empty_asserts_but_no_length_check.1 1 1 (fun _ => 0) [1] 1,
   ratioed_empty_asserts_but_no_length_check.2 1 1 (fun _ => 0) [1] 1 3
     (by norm_num)⟩

/-! ## C10: rescaling the ratio vector -/

lemma headI_map_mul (c : ℚ) (l : List ℚ) :
    (l.map (fun k => c * k)).headI = c * l.headI := by
  cases l with
  | nil =>
    show (0 : ℚ) = c * 0
    ring
  | cons k l => rfl

lemma scale_cancel (c h k x : ℚ) (hc : c ≠ 0) :
    x * (c * h) / (c * k) = x * h / k := by
  rw [show x * (c * h) = c * (x * h) by ring, mul_div_mul_left _ _ hc]

lemma np_scale_by_ratio_scale (s ratio : List ℚ) (c : ℚ) (hc : c ≠ 0) :
    np_scale_by_ratio s (ratio.map (fun k => c * k)) =
      np_scale_by_ratio s ratio := by
  unfold np_scale_by_ratio
  rw [List.length_map]
  by_cases h1 : s.length = ratio.length
  · rw [if_pos h1, if_pos h1, List.zipWith_map_right]
    simp only [headI_map_mul]
    congr 1
    congr 1
    funext x k
    exact scale_cancel c ratio.headI k x hc
  · rw [if_neg h1, if_neg h1]
    by_cases h2 : ratio.length = 1
    · rw [if_pos h2, if_pos h2]
      simp only [headI_map_mul]
      congr 1
      congr 1
      funext x
      exact scale_cancel c ratio.headI ratio.headI x hc
    · rw [if_neg h2, if_neg h2]
      by_cases h3 : s.length = 1
      · rw [if_pos h3, if_pos h3, List.map_map]
        simp only [headI_map_mul, Function.comp]
        congr 1
        congr 1
        funext k
        exact scale_cancel c ratio.headI k s.headI hc
      · rw [if_neg h3, if_neg h3]

/-- C10: `get_min_sample_sizes_ratioed` is invariant under rescaling the
whole ratio vector by a positive constant `c`: the ratio entries enter the
computation only through the quotients `ratio[0] / ratio[g]`. -/
theorem ratioed_scale_invariant (fuel : ℕ) (nqd : ℚ) (tqd : ℚ → ℚ)
    (s_squared ratio : List ℚ) (θ c : ℚ) (hc : 0 < c) :
    get_min_sample_sizes_ratioed fuel nqd tqd s_squared
      (ratio.map (fun k => c * k)) θ =
      get_min_sample_sizes_ratioed fuel nqd tqd s_squared ratio θ := by
  unfold get_min_sample_sizes_ratioed
  rw [List.length_map, np_scale_by_ratio_scale s_squared ratio c (ne_of_gt hc)]

/-- Witness for C10: scaling the ratio `[1, 2]` by `c = 3`. -/
theorem ratioed_scale_invariant_witness :
    get_min_sample_sizes_ratioed 1 1 (fun _ => 0) [1, 1]
        ([1, 2].map (fun k => (3 : ℚ) * k)) 1 =
      get_min_sample_sizes_ratioed 1 1 (fun _ => 0) [1, 1] [1, 2] 1 :=
  ratioed_scale_invariant 1 1 (fun _ => 0) [1, 1] [1, 2] 1 3 (by norm_num)

end SampleSize
